import Mathlib

/-!
# Verification of the Iroha core: Merkle commitment, transaction queue,
# WASM runtime host, and multisig overlay

A shallow embedding of the relevant parts of the `satu-n/iroha` sources,
with theorems settling the specification claims about them.

* `src/crypto/src/merkle.rs` — the Merkle tree (`MerkleTree::from_iter`,
  `root_hash`, `get_leaf`).
* `src/core/src/queue.rs` — the transaction queue (`Queue::push`,
  `Queue::pop`, `Queue::get_transactions_for_block`).
* `src/crates/iroha_core/src/smartcontracts/wasm.rs` — error
  classification, linker imports, live-query eviction.
* `src/wasm/libs/default_executor/src/multisig/` — the multisig overlay.

Machine integers are modelled as `Nat` with explicit wrapping or
saturation where the source's integer type makes overflow possible.
-/

/- ## Merkle tree (src/crypto/src/merkle.rs) -/

/-- Modelled from the spec: the crypto `Hash` type is not under the sources.
The spec describes hashes as byte arrays ordered ascending (lexicographic
byte order, the derived `Ord` of the Rust byte array), with a distinguished
zero hash for empty nodes.  A hash value is its list of bytes. -/
abbrev HashBytes := List Nat

/-- Modelled from the spec: `Hash::zeroed()`, the 32-byte zero hash used for
`Node::Empty` (`Hash::LENGTH == 32`). -/
def zeroed_hash : HashBytes := List.replicate 32 0

/-- Lexicographic comparison of byte arrays: the derived `Ord` that
`hashes.sort_unstable()` in `MerkleTree::from_iter` sorts by
(Rust slice ordering; a proper prefix of a list is smaller). -/
def lexLe : List Nat → List Nat → Bool
  | [], _ => true
  | _ :: _, [] => false
  | a :: as, b :: bs => if a < b then true else if b < a then false else lexLe as bs

/-- The sorting relation on hashes, as a proposition. -/
def hashLe (a b : HashBytes) : Prop := lexLe a b = true

instance : DecidableRel hashLe := fun a b => by
  unfold hashLe; infer_instance

theorem lexLe_total (a b : List Nat) : lexLe a b = true ∨ lexLe b a = true := by
  induction a generalizing b with
  | nil => exact Or.inl rfl
  | cons x xs ih =>
    cases b with
    | nil => exact Or.inr rfl
    | cons y ys =>
      rcases Nat.lt_trichotomy x y with h | h | h
      · left; simp [lexLe, h]
      · subst h
        rcases ih ys with h' | h'
        · left; simp [lexLe, h']
        · right; simp [lexLe, h']
      · right; simp [lexLe, h, Nat.not_lt.mpr (Nat.le_of_lt h)]

theorem lexLe_antisymm (a b : List Nat) (hab : lexLe a b = true)
    (hba : lexLe b a = true) : a = b := by
  induction a generalizing b with
  | nil =>
    cases b with
    | nil => rfl
    | cons y ys => simp [lexLe] at hba
  | cons x xs ih =>
    cases b with
    | nil => simp [lexLe] at hab
    | cons y ys =>
      rcases Nat.lt_trichotomy x y with h | h | h
      · simp [lexLe, h, Nat.not_lt.mpr (Nat.le_of_lt h)] at hba
      · subst h
        simp only [lexLe, Nat.lt_irrefl, if_false] at hab hba
        exact congrArg (x :: ·) (ih ys hab hba)
      · simp [lexLe, h, Nat.not_lt.mpr (Nat.le_of_lt h)] at hab

theorem lexLe_trans (a b c : List Nat) (hab : lexLe a b = true)
    (hbc : lexLe b c = true) : lexLe a c = true := by
  induction a generalizing b c with
  | nil => rfl
  | cons x xs ih =>
    cases b with
    | nil => simp [lexLe] at hab
    | cons y ys =>
      cases c with
      | nil => simp [lexLe] at hbc
      | cons z zs =>
        simp only [lexLe] at hab hbc ⊢
        rcases Nat.lt_trichotomy x y with hxy | hxy | hxy
        · rcases Nat.lt_trichotomy y z with hyz | hyz | hyz
          · simp [Nat.lt_trans hxy hyz]
          · subst hyz; simp [hxy]
          · simp [hyz, Nat.not_lt.mpr (Nat.le_of_lt hyz)] at hbc
        · subst hxy
          rcases Nat.lt_trichotomy x z with hyz | hyz | hyz
          · simp [hyz]
          · subst hyz
            simp only [Nat.lt_irrefl, if_false] at hab hbc ⊢
            exact ih ys zs hab hbc
          · simp [hyz, Nat.not_lt.mpr (Nat.le_of_lt hyz)] at hbc
        · simp [hxy, Nat.not_lt.mpr (Nat.le_of_lt hxy)] at hab

instance : IsTotal HashBytes hashLe := ⟨lexLe_total⟩

instance : IsTrans HashBytes hashLe := ⟨lexLe_trans⟩

instance : IsAntisymm HashBytes hashLe := ⟨lexLe_antisymm⟩

/-- `Node<T>` of `merkle.rs`: a subtree with its stored hash, a leaf, or the
empty padding node. -/
inductive Node where
  | subtree (left : Node) (right : Node) (hash : HashBytes)
  | leaf (hash : HashBytes)
  | empty
deriving DecidableEq, Repr

/-- `Node::hash`: a subtree's stored hash, a leaf's hash, or the zero hash
for `Empty` (`Hash::zeroed().typed()`; `transmute`/`typed` are identity on
the bytes). -/
def Node.hash : Node → HashBytes
  | .subtree _ _ h => h
  | .leaf h => h
  | .empty => zeroed_hash

/-- `u8::saturating_add` on bytes. -/
def saturating_add_u8 (l r : Nat) : Nat := min (l + r) 255

/-- `Node::nodes_pair_hash`: byte-wise saturating addition of the two child
hashes, then `Hash::new`.  `Hash::new` (not under the sources) is the
hashing function the spec calls "then hashing"; it is kept abstract as the
parameter `hfn`. -/
def Node.nodes_pair_hash (hfn : HashBytes → HashBytes) (left right : Node) : HashBytes :=
  hfn (List.zipWith saturating_add_u8 left.hash right.hash)

/-- `Node::from_nodes`. -/
def Node.from_nodes (hfn : HashBytes → HashBytes) (left right : Node) : Node :=
  .subtree left right (Node.nodes_pair_hash hfn left right)

/-- `Node::from_node`: a single-child internal node reusing the child's hash.
(In `from_iter` the `None => from_node` branch is unreachable: the loop body
only runs with at least two nodes in the deque.) -/
def Node.from_node (left : Node) : Node :=
  .subtree left .empty left.hash

/-- The `while nodes.len() > 1` loop of `MerkleTree::from_iter` on the
`VecDeque` (front of the list is the front of the deque): pop two nodes from
the front and push their combination to the back.  Each iteration shrinks the
deque by one, so `fuel` iterations with `fuel` the initial length run the
loop to its fixpoint; once fewer than two nodes remain the deque is returned
unchanged, exactly when the `while` condition fails. -/
def merkleBuildLoop (hfn : HashBytes → HashBytes) : Nat → List Node → List Node
  | 0, nodes => nodes
  | fuel + 1, nodes =>
    match nodes with
    | a :: b :: rest => merkleBuildLoop hfn fuel (rest ++ [Node.from_nodes hfn a b])
    | other => other

/-- `MerkleTree<T>`: the root node. -/
structure MerkleTree where
  root_node : Node
deriving DecidableEq, Repr

/-- `MerkleTree::from_iter`: collect the hashes, `sort_unstable()` them
ascending, turn them into leaves, pad to even length with one `Empty` node,
run the pairing loop, and take the remaining node (`unwrap_or(Empty)`) as
root.  `sort_unstable` is modelled by insertion sort: for the total,
transitive, antisymmetric order `hashLe` every sort produces the same list,
so the choice of algorithm is immaterial. -/
def MerkleTree.from_iter (hfn : HashBytes → HashBytes) (hashes : List HashBytes) :
    MerkleTree :=
  let sorted := List.insertionSort hashLe hashes
  let nodes := sorted.map Node.leaf
  let padded := if nodes.length % 2 ≠ 0 then nodes ++ [Node.empty] else nodes
  { root_node :=
      match merkleBuildLoop hfn padded.length padded with
      | n :: _ => n
      | [] => Node.empty }

/-- `MerkleTree::root_hash`: the hash of the root node (`transmute` is
identity on the bytes). -/
def MerkleTree.root_hash (t : MerkleTree) : HashBytes := t.root_node.hash

/-- `Node::get_leaf_inner`: `Ok` with the `idx`-th leaf hash of the subtree,
or `Err` with the number of leaf positions seen.  The recursion into the
right child uses `idx - seen`; in Rust this is `usize` subtraction (which
panics in debug builds when `seen > idx`), here truncated `Nat` subtraction.
The theorems below only evaluate index `0`, where no subtraction occurs. -/
def Node.get_leaf_inner : Node → Nat → Except Nat HashBytes
  | .leaf h, 0 => .ok h
  | .subtree l r _, idx =>
    match l.get_leaf_inner idx with
    | .ok h => .ok h
    | .error seen =>
      match r.get_leaf_inner (idx - seen) with
      | .ok h => .ok h
      | .error idx2 => .error (idx2 + seen)
  | .leaf _, _ + 1 => .error 1
  | .empty, _ => .error 1

/-- `MerkleTree::get_leaf`: the hash of the `idx`-th leaf node, if any. -/
def MerkleTree.get_leaf (t : MerkleTree) (idx : Nat) : Option HashBytes :=
  (t.root_node.get_leaf_inner idx).toOption

/-- C1: for every finite multiset of transaction hashes and every permutation
of it, building a `MerkleTree` yields the same root hash: the construction
sorts the leaves first, and for the total, transitive, antisymmetric order
on hashes the sorted list is determined by the multiset alone, so validators
receiving the transactions in different orders derive identical roots. -/
theorem merkle_root_hash_perm_invariant (hfn : HashBytes → HashBytes)
    (S S' : List HashBytes) (h : S.Perm S') :
    (MerkleTree.from_iter hfn S).root_hash = (MerkleTree.from_iter hfn S').root_hash := by
  have hsort : List.insertionSort hashLe S = List.insertionSort hashLe S' :=
    List.eq_of_perm_of_sorted
      ((List.perm_insertionSort hashLe S).trans
        (h.trans (List.perm_insertionSort hashLe S').symm))
      (List.sorted_insertionSort hashLe S) (List.sorted_insertionSort hashLe S')
  unfold MerkleTree.from_iter
  rw [hsort]

/-- Witness for `merkle_root_hash_perm_invariant` at two concrete 32-byte
hash lists that permute each other. -/
theorem merkle_root_hash_perm_invariant_witness :
    (([List.replicate 32 2, List.replicate 32 1] : List HashBytes).Perm
        [List.replicate 32 1, List.replicate 32 2]) ∧
    (MerkleTree.from_iter id [List.replicate 32 2, List.replicate 32 1]).root_hash =
      (MerkleTree.from_iter id [List.replicate 32 1, List.replicate 32 2]).root_hash :=
  ⟨by decide, merkle_root_hash_perm_invariant id _ _ (by decide)⟩

/-- C4: the constructed tree is claimed to hold the input hashes as leaves in
ascending sorted order, `get_leaf i` returning the `i`-th smallest input
hash.  Evaluating the construction at the five ascending 32-byte hashes of
the source file's own `get_leaf` test (`[i; 32]` for `i = 1..5`) refutes
this: the pairing loop rotates the deque so that the in-tree leaf order
becomes `[h5, Empty, h1, h2, h3, h4]`, and `get_leaf 0` returns the largest
hash `h5`, not the smallest `h1` — contradicting the test's
`assert_eq!(tree.get_leaf(0), Some(hash1))`. -/
theorem merkle_from_iter_leaf_order_bug :
    (MerkleTree.from_iter id
        [List.replicate 32 1, List.replicate 32 2, List.replicate 32 3,
          List.replicate 32 4, List.replicate 32 5]).get_leaf 0 =
      some (List.replicate 32 5) ∧
    some (List.replicate 32 5 : HashBytes) ≠ some (List.replicate 32 1) ∧
    lexLe (List.replicate 32 1) (List.replicate 32 5) = true := by
  refine ⟨by decide, by decide, by decide⟩

/- ## Transaction queue (src/core/src/queue.rs) -/

/-- A `VersionedAcceptedTransaction` as the queue observes it: its hash and
its signature set.  Modelled from the spec: the transaction and signature
types are not under the sources; the spec describes signatures as a set
(`SignaturesOf`, a set container whose `extend` is set union), and the queue
keys transactions by `tx.hash()`. -/
structure Tx where
  hash : Nat
  signatures : Finset Nat
deriving DecidableEq

/-- `queue::Error`: the queue push error (payloads of `SignatureCondition`
are dropped). -/
inductive QueueError where
  | full
  | inFuture
  | expired
  | inBlockchain
  | signatureCondition
deriving DecidableEq, Repr

/-- The queue's external collaborators, as predicates on a transaction:
`is_in_future` (against `future_threshold`), `is_expired` (against `ttl`),
`is_in_blockchain` (against the `wsv`), and `check_signature_condition`
(whose Rust result is `Result<EvaluatesTo<bool>>`).  A deterministic
environment models the fixed wsv/clock during one queue operation. -/
structure QueueEnv where
  is_in_future : Tx → Bool
  is_expired : Tx → Bool
  is_in_blockchain : Tx → Bool
  check_signature_condition : Tx → Except Unit Bool

/-- `DashMap<HashOf, VersionedAcceptedTransaction>` lookup. -/
def txsLookup : List (Nat × Tx) → Nat → Option Tx
  | [], _ => none
  | (k, v) :: rest, h => if k = h then some v else txsLookup rest h

/-- `Entry::Vacant::insert`. -/
def txsInsert (m : List (Nat × Tx)) (k : Nat) (v : Tx) : List (Nat × Tx) :=
  m ++ [(k, v)]

/-- `DashMap::remove` / `Entry::Occupied::remove_entry` (removes the entry
with the given key). -/
def txsRemove (m : List (Nat × Tx)) (k : Nat) : List (Nat × Tx) :=
  m.filter (fun p => p.1 ≠ k)

/-- `Entry::Occupied::get_mut`: update the stored value at a key in place. -/
def txsUpdate (m : List (Nat × Tx)) (k : Nat) (f : Tx → Tx) : List (Nat × Tx) :=
  m.map (fun p => if p.1 = k then (p.1, f p.2) else p)

/-- The `Queue` struct: the lock-free ring of hashes (`ArrayQueue`, front of
the list is the front of the ring), the hash map of stored transactions, and
the configuration fields.  `queue_capacity` is the `ArrayQueue` capacity,
set to `maximum_transactions_in_queue` (the same value as `max_txs`) by
`from_configuration`. -/
structure Queue where
  queue : List Nat
  txs : List (Nat × Tx)
  txs_in_block : Nat
  max_txs : Nat
  queue_capacity : Nat
deriving DecidableEq

/-- `Queue::check_tx`: expired, already-in-blockchain, then the signature
condition; `Ok(false)` and `Err` both map to `SignatureCondition`. -/
def check_tx (env : QueueEnv) (tx : Tx) : Except QueueError Unit :=
  if env.is_expired tx then .error .expired
  else if env.is_in_blockchain tx then .error .inBlockchain
  else
    match env.check_signature_condition tx with
    | .ok true => .ok ()
    | .ok false => .error .signatureCondition
    | .error _ => .error .signatureCondition

/-- `Queue::push`: reject `InFuture`, run `check_tx`, reject `Full` when the
map already holds `max_txs` entries; then either merge signatures into an
already-pending entry with the same hash (the MST case, no second ring
handle), or insert the new entry and enqueue its hash, undoing the insertion
when the ring itself is full. -/
def Queue.push (env : QueueEnv) (q : Queue) (tx : Tx) :
    Queue × Except QueueError Unit :=
  if env.is_in_future tx then (q, .error .inFuture)
  else
    match check_tx env tx with
    | .error e => (q, .error e)
    | .ok _ =>
      if q.max_txs ≤ q.txs.length then (q, .error .full)
      else
        match txsLookup q.txs tx.hash with
        | some _ =>
          ({ q with
              txs := txsUpdate q.txs tx.hash
                (fun old => { old with signatures := old.signatures ∪ tx.signatures }) },
            .ok ())
        | none =>
          let q' := { q with txs := txsInsert q.txs tx.hash tx }
          if q'.queue_capacity ≤ q'.queue.length then
            ({ q' with txs := txsRemove q'.txs tx.hash }, .error .full)
          else
            ({ q' with queue := q'.queue ++ [tx.hash] }, .ok ())

/-- `Queue::pop`: the pop loop over the ring.  Pops a hash; a missing map
entry is skipped; an entry failing `check_tx` is removed and skipped; an
entry passing `check_tx` is recorded in `seen` and yielded when its
signature condition evaluates to `true` (after `check_tx` succeeded the
re-evaluation is necessarily `Ok(true)`; the remaining match arms mirror the
loop continuing — the `Err` arm is the `expect` the code states to be
unreachable).  Returns the popped transaction (if any), the remaining ring,
the updated map, and the updated `seen` list. -/
def Queue.pop (env : QueueEnv) :
    List Nat → List (Nat × Tx) → List Nat →
    Option Tx × List Nat × List (Nat × Tx) × List Nat
  | [], txs, seen => (none, [], txs, seen)
  | h :: rest, txs, seen =>
    match txsLookup txs h with
    | none => Queue.pop env rest txs seen
    | some tx =>
      match check_tx env tx with
      | .error _ => Queue.pop env rest (txsRemove txs h) seen
      | .ok _ =>
        let seen' := seen ++ [h]
        match env.check_signature_condition tx with
        | .ok true => (some tx, rest, txs, seen')
        | .ok false => Queue.pop env rest txs seen'
        | .error _ => Queue.pop env rest txs seen'

/-- The collection loop of `Queue::get_transactions_for_block`:
`repeat_with(|| self.pop(&mut seen)).take_while(is_some).take(txs_in_block)`.
Calls `pop` until it returns `None` or `txs_in_block` transactions have been
collected; `out` accumulates in reverse. -/
def Queue.popMany (env : QueueEnv) :
    Nat → List Nat → List (Nat × Tx) → List Nat → List Tx →
    List Tx × List Nat × List (Nat × Tx) × List Nat
  | 0, ring, txs, seen, out => (out.reverse, ring, txs, seen)
  | n + 1, ring, txs, seen, out =>
    match Queue.pop env ring txs seen with
    | (none, ring', txs', seen') => (out.reverse, ring', txs', seen')
    | (some tx, ring', txs', seen') => Queue.popMany env n ring' txs' seen' (tx :: out)

/-- `Queue::get_transactions_for_block`: run the collection loop, then
re-push every hash in `seen` onto the ring (`try_for_each(push)`, appending
in order). -/
def Queue.get_transactions_for_block (env : QueueEnv) (q : Queue) :
    List Tx × Queue :=
  match Queue.popMany env q.txs_in_block q.queue q.txs [] [] with
  | (out, ring', txs', seen) => (out, { q with queue := ring' ++ seen, txs := txs' })

theorem txsLookup_mem (m : List (Nat × Tx)) (k : Nat) (v : Tx)
    (h : txsLookup m k = some v) : (k, v) ∈ m := by
  induction m with
  | nil => simp [txsLookup] at h
  | cons a rest ih =>
    obtain ⟨ka, va⟩ := a
    by_cases hk : ka = k
    · subst hk
      simp [txsLookup] at h
      subst h
      exact List.mem_cons_self _ _
    · simp [txsLookup, hk] at h
      exact List.mem_cons_of_mem _ (ih h)

theorem txsUpdate_map_fst (m : List (Nat × Tx)) (k : Nat) (f : Tx → Tx) :
    (txsUpdate m k f).map Prod.fst = m.map Prod.fst := by
  induction m with
  | nil => rfl
  | cons a rest ih =>
    by_cases hk : a.1 = k <;> simp [txsUpdate, hk] <;>
      simpa [txsUpdate] using ih

theorem txsLookup_txsUpdate (m : List (Nat × Tx)) (k : Nat) (v : Tx) (f : Tx → Tx)
    (h : txsLookup m k = some v) : txsLookup (txsUpdate m k f) k = some (f v) := by
  induction m with
  | nil => simp [txsLookup] at h
  | cons a rest ih =>
    obtain ⟨ka, va⟩ := a
    simp only [txsUpdate, List.map_cons]
    by_cases hk : ka = k
    · subst hk
      simp [txsLookup] at h
      subst h
      rw [if_pos rfl]
      simp [txsLookup]
    · simp only [txsLookup, hk, if_false] at h
      rw [if_neg hk]
      simp only [txsLookup, hk, if_false]
      exact ih h

theorem filter_key_nil (m : List (Nat × Tx)) (k : Nat)
    (h : k ∉ m.map Prod.fst) : m.filter (fun p => p.1 = k) = [] := by
  induction m with
  | nil => rfl
  | cons a rest ih =>
    simp only [List.map_cons, List.mem_cons] at h
    push_neg at h
    simp [List.filter_cons, Ne.symm h.1, ih h.2]

theorem filter_key_unique (m : List (Nat × Tx)) (k : Nat) (v : Tx)
    (hnd : (m.map Prod.fst).Nodup) (h : txsLookup m k = some v) :
    m.filter (fun p => p.1 = k) = [(k, v)] := by
  induction m with
  | nil => simp [txsLookup] at h
  | cons a rest ih =>
    obtain ⟨ka, va⟩ := a
    simp only [List.map_cons, List.nodup_cons] at hnd
    by_cases hk : ka = k
    · subst hk
      simp [txsLookup] at h
      subst h
      simp [List.filter_cons, filter_key_nil rest ka hnd.1]
    · simp [txsLookup, hk] at h
      simp [List.filter_cons, hk, ih hnd.2 h]

/-- C2: when an accepted transaction whose hash is already pending passes
the admission checks and the map is below capacity, a second `push` returns
`Ok`, leaves exactly one stored entry for the hash whose signature set is
the union of both submissions' signature sets, and pushes no second handle
onto the hash ring. -/
theorem queue_push_duplicate_merges_signatures (env : QueueEnv) (q : Queue)
    (tx old : Tx)
    (hfut : env.is_in_future tx = false)
    (hchk : check_tx env tx = .ok ())
    (hroom : q.txs.length < q.max_txs)
    (hdup : txsLookup q.txs tx.hash = some old)
    (hnd : (q.txs.map Prod.fst).Nodup) :
    (Queue.push env q tx).2 = .ok () ∧
    txsLookup (Queue.push env q tx).1.txs tx.hash =
      some { old with signatures := old.signatures ∪ tx.signatures } ∧
    (Queue.push env q tx).1.txs.filter (fun p => p.1 = tx.hash) =
      [(tx.hash, { old with signatures := old.signatures ∪ tx.signatures })] ∧
    (Queue.push env q tx).1.queue = q.queue := by
  have hpush : Queue.push env q tx =
      ({ q with
          txs := txsUpdate q.txs tx.hash
            (fun o => { o with signatures := o.signatures ∪ tx.signatures }) },
        .ok ()) := by
    unfold Queue.push
    rw [hfut, hchk]
    simp [Nat.not_le.mpr hroom, hdup]
  refine ⟨by rw [hpush], ?_, ?_, by rw [hpush]⟩
  · rw [hpush]
    exact txsLookup_txsUpdate q.txs tx.hash old
      (fun o => { o with signatures := o.signatures ∪ tx.signatures }) hdup
  · rw [hpush]
    exact filter_key_unique _ tx.hash _
      (by rw [txsUpdate_map_fst]; exact hnd)
      (txsLookup_txsUpdate q.txs tx.hash old
        (fun o => { o with signatures := o.signatures ∪ tx.signatures }) hdup)

/-- Environment used by the concrete queue instances: nothing is in the
future, expired, or already committed, and every signature condition
evaluates to `true`. -/
def envW : QueueEnv :=
  ⟨fun _ => false, fun _ => false, fun _ => false, fun _ => .ok true⟩

/-- A transaction already pending in the concrete queues. -/
def txOld : Tx := ⟨5, {1}⟩

/-- A second submission of the same transaction carrying another signature. -/
def txW : Tx := ⟨5, {2}⟩

/-- A queue below capacity holding `txOld`. -/
def qW : Queue := ⟨[5], [(5, txOld)], 2, 10, 10⟩

/-- Witness for `queue_push_duplicate_merges_signatures` at the concrete
duplicate submission. -/
theorem queue_push_duplicate_merges_signatures_witness :
    (Queue.push envW qW txW).2 = .ok () ∧
    txsLookup (Queue.push envW qW txW).1.txs txW.hash =
      some { txOld with signatures := txOld.signatures ∪ txW.signatures } ∧
    (Queue.push envW qW txW).1.txs.filter (fun p => p.1 = txW.hash) =
      [(txW.hash, { txOld with signatures := txOld.signatures ∪ txW.signatures })] ∧
    (Queue.push envW qW txW).1.queue = qW.queue :=
  queue_push_duplicate_merges_signatures envW qW txW txOld (by rfl) (by rfl)
    (by decide) (by decide) (by decide)

/-- C10: the capacity check in `push` runs before duplicate-hash detection,
so with the stored-transaction map at `max_txs` entries a duplicate of an
already-pending transaction is rejected with `Full` and no signature
merging happens: the queue is returned unchanged. -/
theorem queue_push_full_before_merge (env : QueueEnv) (q : Queue) (tx : Tx)
    (hfut : env.is_in_future tx = false)
    (hchk : check_tx env tx = .ok ())
    (hfull : q.max_txs ≤ q.txs.length)
    (hdup : (txsLookup q.txs tx.hash).isSome = true) :
    Queue.push env q tx = (q, .error .full) := by
  unfold Queue.push
  rw [hfut, hchk]
  simp [hfull]

/-- A queue whose map is at capacity (`max_txs = 1`) holding `txOld`. -/
def qF : Queue := ⟨[5], [(5, txOld)], 2, 1, 1⟩

/-- Witness for `queue_push_full_before_merge` at the concrete full queue
holding a pending transaction with the same hash. -/
theorem queue_push_full_before_merge_witness :
    Queue.push envW qF txW = (qF, .error .full) :=
  queue_push_full_before_merge envW qF txW (by rfl) (by rfl) (by decide)
    (by rfl)

/-- The map invariant maintained by `push`: every stored entry is keyed by
its transaction's hash. -/
def KeyCoherent (m : List (Nat × Tx)) : Prop := ∀ p ∈ m, p.2.hash = p.1

theorem keyCoherent_txsRemove (m : List (Nat × Tx)) (k : Nat)
    (hk : KeyCoherent m) : KeyCoherent (txsRemove m k) := by
  intro p hp
  exact hk p (List.mem_of_mem_filter hp)

theorem pop_cons_missing (env : QueueEnv) (h : Nat) (rest : List Nat)
    (txs : List (Nat × Tx)) (seen : List Nat)
    (hl : txsLookup txs h = none) :
    Queue.pop env (h :: rest) txs seen = Queue.pop env rest txs seen := by
  simp [Queue.pop, hl]

theorem pop_cons_invalid (env : QueueEnv) (h : Nat) (rest : List Nat)
    (txs : List (Nat × Tx)) (seen : List Nat) (tx : Tx) (e : QueueError)
    (hl : txsLookup txs h = some tx) (hc : check_tx env tx = .error e) :
    Queue.pop env (h :: rest) txs seen = Queue.pop env rest (txsRemove txs h) seen := by
  simp [Queue.pop, hl, hc]

theorem pop_cons_yield (env : QueueEnv) (h : Nat) (rest : List Nat)
    (txs : List (Nat × Tx)) (seen : List Nat) (tx : Tx)
    (hl : txsLookup txs h = some tx) (hc : check_tx env tx = .ok ())
    (hs : env.check_signature_condition tx = .ok true) :
    Queue.pop env (h :: rest) txs seen = (some tx, rest, txs, seen ++ [h]) := by
  simp [Queue.pop, hl, hc, hs]

theorem pop_cons_unsigned (env : QueueEnv) (h : Nat) (rest : List Nat)
    (txs : List (Nat × Tx)) (seen : List Nat) (tx : Tx)
    (hl : txsLookup txs h = some tx) (hc : check_tx env tx = .ok ())
    (hs : env.check_signature_condition tx = .ok false) :
    Queue.pop env (h :: rest) txs seen = Queue.pop env rest txs (seen ++ [h]) := by
  simp [Queue.pop, hl, hc, hs]

theorem pop_cons_sig_error (env : QueueEnv) (h : Nat) (rest : List Nat)
    (txs : List (Nat × Tx)) (seen : List Nat) (tx : Tx) (e : Unit)
    (hl : txsLookup txs h = some tx) (hc : check_tx env tx = .ok ())
    (hs : env.check_signature_condition tx = .error e) :
    Queue.pop env (h :: rest) txs seen = Queue.pop env rest txs (seen ++ [h]) := by
  simp [Queue.pop, hl, hc, hs]

theorem pop_seen_subset (env : QueueEnv) (ring : List Nat) :
    ∀ txs seen, ∀ x ∈ seen, x ∈ (Queue.pop env ring txs seen).2.2.2 := by
  induction ring with
  | nil =>
    intro txs seen x hx
    simpa [Queue.pop] using hx
  | cons h rest ih =>
    intro txs seen x hx
    rcases hl : txsLookup txs h with - | tx
    · rw [pop_cons_missing env h rest txs seen hl]
      exact ih txs seen x hx
    · rcases hc : check_tx env tx with e | u
      · rw [pop_cons_invalid env h rest txs seen tx e hl hc]
        exact ih (txsRemove txs h) seen x hx
      · obtain rfl : u = () := rfl
        rcases hs : env.check_signature_condition tx with e | b
        · rw [pop_cons_sig_error env h rest txs seen tx e hl hc hs]
          exact ih txs (seen ++ [h]) x (List.mem_append_left _ hx)
        · cases b
          · rw [pop_cons_unsigned env h rest txs seen tx hl hc hs]
            exact ih txs (seen ++ [h]) x (List.mem_append_left _ hx)
          · rw [pop_cons_yield env h rest txs seen tx hl hc hs]
            exact List.mem_append_left _ hx

theorem pop_keyCoherent (env : QueueEnv) (ring : List Nat) :
    ∀ txs seen, KeyCoherent txs → KeyCoherent (Queue.pop env ring txs seen).2.2.1 := by
  induction ring with
  | nil =>
    intro txs seen hk
    simpa [Queue.pop] using hk
  | cons h rest ih =>
    intro txs seen hk
    rcases hl : txsLookup txs h with - | tx
    · rw [pop_cons_missing env h rest txs seen hl]
      exact ih txs seen hk
    · rcases hc : check_tx env tx with e | u
      · rw [pop_cons_invalid env h rest txs seen tx e hl hc]
        exact ih (txsRemove txs h) seen (keyCoherent_txsRemove txs h hk)
      · obtain rfl : u = () := rfl
        rcases hs : env.check_signature_condition tx with e | b
        · rw [pop_cons_sig_error env h rest txs seen tx e hl hc hs]
          exact ih txs (seen ++ [h]) hk
        · cases b
          · rw [pop_cons_unsigned env h rest txs seen tx hl hc hs]
            exact ih txs (seen ++ [h]) hk
          · rw [pop_cons_yield env h rest txs seen tx hl hc hs]
            exact hk

theorem pop_yield_in_seen (env : QueueEnv) (ring : List Nat) :
    ∀ txs seen tx ring' txs' seen', KeyCoherent txs →
    Queue.pop env ring txs seen = (some tx, ring', txs', seen') →
    tx.hash ∈ seen' := by
  induction ring with
  | nil =>
    intro txs seen tx ring' txs' seen' _ hp
    simp [Queue.pop] at hp
  | cons h rest ih =>
    intro txs seen tx ring' txs' seen' hk hp
    rcases hl : txsLookup txs h with - | tx0
    · rw [pop_cons_missing env h rest txs seen hl] at hp
      exact ih txs seen tx ring' txs' seen' hk hp
    · rcases hc : check_tx env tx0 with e | u
      · rw [pop_cons_invalid env h rest txs seen tx0 e hl hc] at hp
        exact ih (txsRemove txs h) seen tx ring' txs' seen'
          (keyCoherent_txsRemove txs h hk) hp
      · obtain rfl : u = () := rfl
        rcases hs : env.check_signature_condition tx0 with e | b
        · rw [pop_cons_sig_error env h rest txs seen tx0 e hl hc hs] at hp
          exact ih txs (seen ++ [h]) tx ring' txs' seen' hk hp
        · cases b
          · rw [pop_cons_unsigned env h rest txs seen tx0 hl hc hs] at hp
            exact ih txs (seen ++ [h]) tx ring' txs' seen' hk hp
          · rw [pop_cons_yield env h rest txs seen tx0 hl hc hs] at hp
            have hh : tx0.hash = h := hk (h, tx0) (txsLookup_mem txs h tx0 hl)
            rw [Prod.mk.injEq, Prod.mk.injEq, Prod.mk.injEq] at hp
            obtain ⟨h1, -, -, h4⟩ := hp
            have h1' : tx = tx0 := (Option.some.inj h1).symm
            subst h1'
            subst h4
            rw [hh]
            simp

theorem popMany_out_in_seen (env : QueueEnv) (n : Nat) :
    ∀ ring txs seen out, KeyCoherent txs →
    (∀ t ∈ out, t.hash ∈ seen) →
    ∀ t ∈ (Queue.popMany env n ring txs seen out).1,
      t.hash ∈ (Queue.popMany env n ring txs seen out).2.2.2 := by
  induction n with
  | zero =>
    intro ring txs seen out _ hout t ht
    simp only [Queue.popMany] at ht ⊢
    exact hout t (List.mem_reverse.mp ht)
  | succ n ih =>
    intro ring txs seen out hk hout t ht
    simp only [Queue.popMany] at ht ⊢
    rcases hp : Queue.pop env ring txs seen with ⟨otx, ring', txs', seen'⟩
    have hsub : ∀ x ∈ seen, x ∈ seen' := by
      intro x hx
      have := pop_seen_subset env ring txs seen x hx
      rw [hp] at this
      exact this
    rw [hp] at ht
    cases otx with
    | none =>
      dsimp only at ht ⊢
      exact hsub t.hash (hout t (List.mem_reverse.mp ht))
    | some tx =>
      dsimp only at ht ⊢
      have hk' : KeyCoherent txs' := by
        have := pop_keyCoherent env ring txs seen hk
        rw [hp] at this
        exact this
      refine ih ring' txs' seen' (tx :: out) hk' ?_ t ht
      intro t' ht'
      rcases List.mem_cons.mp ht' with rfl | hmem
      · exact pop_yield_in_seen env ring txs seen t' ring' txs' seen' hk hp
      · exact hsub t'.hash (hout t' hmem)

/-- C5 amended: after every `get_transactions_for_block`, exactly the hashes
recorded as seen during the pop loop are re-pushed onto the hash ring — and
`pop` records a hash as seen *before* yielding its transaction, so the hash
of every transaction yielded into the returned block batch is re-pushed as
well (given the `push`-maintained invariant that entries are keyed by their
transaction's hash).  Transactions therefore stay available to the next
builder invocation until they expire or are committed. -/
theorem queue_yielded_hashes_repushed (env : QueueEnv) (q : Queue)
    (hk : KeyCoherent q.txs) :
    ∀ t ∈ (Queue.get_transactions_for_block env q).1,
      t.hash ∈ (Queue.get_transactions_for_block env q).2.queue := by
  intro t ht
  unfold Queue.get_transactions_for_block at ht ⊢
  rcases hp : Queue.popMany env q.txs_in_block q.queue q.txs [] []
    with ⟨out, ring', txs', seen⟩
  rw [hp] at ht
  dsimp only at ht ⊢
  have hmem := popMany_out_in_seen env q.txs_in_block q.queue q.txs [] [] hk
    (by intro t' ht'; simp at ht') t
  rw [hp] at hmem
  dsimp only at hmem
  exact List.mem_append_right _ (hmem ht)

/-- The single pending transaction of the C5 counterexample queue. -/
def tx0 : Tx := ⟨1, {0}⟩

/-- A queue holding exactly `tx0`, with room for two transactions per
block. -/
def q0 : Queue := ⟨[1], [(1, tx0)], 2, 10, 10⟩

/-- Counterexample to C5 as stated: with a single valid pending transaction,
`get_transactions_for_block` yields it *and* re-pushes its hash onto the
ring (the claim says a yielded transaction's hash is not re-pushed), so the
immediately following call with unchanged ledger state yields it again (the
claim says it does not).  This is the behaviour the source's own
`transactions_available_after_pop` test asserts. -/
theorem queue_repush_counterexample :
    (Queue.get_transactions_for_block envW q0).1 = [tx0] ∧
    (Queue.get_transactions_for_block envW q0).2.queue = [1] ∧
    (Queue.get_transactions_for_block envW
        (Queue.get_transactions_for_block envW q0).2).1 = [tx0] := by
  refine ⟨by decide, by decide, by decide⟩

/-- Witness for `queue_yielded_hashes_repushed` at the concrete queue `q0`
and its yielded transaction `tx0`. -/
theorem queue_yielded_hashes_repushed_witness :
    tx0.hash ∈ (Queue.get_transactions_for_block envW q0).2.queue :=
  queue_yielded_hashes_repushed envW q0 (by unfold KeyCoherent; decide) tx0
    (by decide)

/- ## WASM runtime host (src/crates/iroha_core/src/smartcontracts/wasm.rs) -/

/-- `wasmtime::Trap` (external library; the variant set of the wasmtime
release this crate links): the trap codes a wasmtime error can downcast
to. -/
inductive Trap where
  | stackOverflow
  | memoryOutOfBounds
  | heapMisaligned
  | tableOutOfBounds
  | indirectCallToNull
  | badSignature
  | integerOverflow
  | integerDivisionByZero
  | badConversionToInteger
  | unreachableCodeReached
  | interrupt
  | alwaysTrapAdapter
  | outOfFuel
  | atomicWaitNonSharedMemory
deriving DecidableEq, Repr

/-- `wasmtime::Error`: either an error that downcasts to a `Trap`
(`err.downcast_ref() == Some(&trap)`), or any other host-side error for
which the downcast fails. -/
inductive WasmtimeError where
  | trap (t : Trap)
  | nonTrap
deriving DecidableEq, Repr

/-- `ExportFnCallError` of `wasm::error` (the wrapped source error is
dropped; only the classification matters here). -/
inductive ExportFnCallError where
  | hostExecution
  | executionLimitsExceeded
  | other
deriving DecidableEq, Repr

/-- `impl From<wasmtime::Error> for ExportFnCallError`: a successful
downcast to one of the six listed traps gives `ExecutionLimitsExceeded`,
a downcast to any other trap gives `Other`, and a failed downcast gives
`HostExecution`. -/
def ExportFnCallError.ofWasmtimeError (err : WasmtimeError) : ExportFnCallError :=
  match err with
  | .trap t =>
    match t with
    | .stackOverflow | .memoryOutOfBounds | .tableOutOfBounds
    | .indirectCallToNull | .outOfFuel | .interrupt => .executionLimitsExceeded
    | _ => .other
  | .nonTrap => .hostExecution

/-- The six trap codes the `From` impl maps to `ExecutionLimitsExceeded`. -/
def executionLimitTraps : List Trap :=
  [.stackOverflow, .memoryOutOfBounds, .tableOutOfBounds,
    .indirectCallToNull, .outOfFuel, .interrupt]

/-- C7 counterexample: the claim says every wasmtime error outside the six
listed traps is classified `HostExecution`; but an error downcasting to the
trap `UnreachableCodeReached` — produced for instance by a guest hitting an
`unreachable` instruction — is classified `Other`, a third classification
the claim says no call yields. -/
theorem export_fn_call_error_counterexample :
    ExportFnCallError.ofWasmtimeError (.trap .unreachableCodeReached) =
      .other ∧
    (ExportFnCallError.other ≠ ExportFnCallError.hostExecution) ∧
    Trap.unreachableCodeReached ∉ executionLimitTraps := by
  refine ⟨rfl, by decide, by decide⟩

/-- C7 amended: the classification is three-way.  An error downcasting to
one of the six traps `StackOverflow`, `MemoryOutOfBounds`,
`TableOutOfBounds`, `IndirectCallToNull`, `OutOfFuel`, `Interrupt` is
classified `ExecutionLimitsExceeded`; an error downcasting to any other
trap is classified `Other`; an error that does not downcast to a trap is
classified `HostExecution`. -/
theorem export_fn_call_error_classification (e : WasmtimeError) :
    (ExportFnCallError.ofWasmtimeError e = .executionLimitsExceeded ↔
      ∃ t, e = .trap t ∧ t ∈ executionLimitTraps) ∧
    (ExportFnCallError.ofWasmtimeError e = .hostExecution ↔ e = .nonTrap) ∧
    (ExportFnCallError.ofWasmtimeError e = .other ↔
      ∃ t, e = .trap t ∧ t ∉ executionLimitTraps) := by
  cases e with
  | nonTrap => simp [ExportFnCallError.ofWasmtimeError]
  | trap t =>
    cases t <;> simp [ExportFnCallError.ofWasmtimeError, executionLimitTraps]

/-- The names under which host functions are registered, `mod export`. -/
def EXECUTE_ISI : String := "execute_instruction"

/-- `export::EXECUTE_QUERY`. -/
def EXECUTE_QUERY : String := "execute_query"

/-- `export::SET_DATA_MODEL`. -/
def SET_DATA_MODEL : String := "set_data_model"

/-- `export::DBG`. -/
def DBG : String := "dbg"

/-- `export::LOG`. -/
def LOG : String := "log"

/-- `WASM_MODULE`: the module every host import lives in. -/
def WASM_MODULE : String := "iroha"

/-- The six typed entrypoint kinds for which `RuntimeBuilder::<_>::build`
constructs a linker. -/
inductive EntrypointKind where
  | smartContract
  | trigger
  | executeTransaction
  | executeInstruction
  | validateQuery
  | migrate
deriving DecidableEq, Repr

/-- The `(module, name)` pairs registered on the linker by each
`RuntimeBuilder::<_>::build`, in registration order: the `create_imports!`
macro always registers `log` and `dbg` first and then the listed extras —
`execute_instruction` and `execute_query` for every kind, plus
`set_data_model` for the four executor entrypoints only. -/
def linker_imports : EntrypointKind → List (String × String)
  | .smartContract =>
    [(WASM_MODULE, LOG), (WASM_MODULE, DBG),
      (WASM_MODULE, EXECUTE_ISI), (WASM_MODULE, EXECUTE_QUERY)]
  | .trigger =>
    [(WASM_MODULE, LOG), (WASM_MODULE, DBG),
      (WASM_MODULE, EXECUTE_ISI), (WASM_MODULE, EXECUTE_QUERY)]
  | .executeTransaction =>
    [(WASM_MODULE, LOG), (WASM_MODULE, DBG),
      (WASM_MODULE, EXECUTE_ISI), (WASM_MODULE, EXECUTE_QUERY),
      (WASM_MODULE, SET_DATA_MODEL)]
  | .executeInstruction =>
    [(WASM_MODULE, LOG), (WASM_MODULE, DBG),
      (WASM_MODULE, EXECUTE_ISI), (WASM_MODULE, EXECUTE_QUERY),
      (WASM_MODULE, SET_DATA_MODEL)]
  | .validateQuery =>
    [(WASM_MODULE, LOG), (WASM_MODULE, DBG),
      (WASM_MODULE, EXECUTE_ISI), (WASM_MODULE, EXECUTE_QUERY),
      (WASM_MODULE, SET_DATA_MODEL)]
  | .migrate =>
    [(WASM_MODULE, LOG), (WASM_MODULE, DBG),
      (WASM_MODULE, EXECUTE_ISI), (WASM_MODULE, EXECUTE_QUERY),
      (WASM_MODULE, SET_DATA_MODEL)]

/-- C8 counterexample: the claim says all six entrypoint kinds get exactly
the five imports including `set_data_model`; but the smart-contract linker
registers only four imports and `set_data_model` is not among them. -/
theorem linker_imports_counterexample :
    (WASM_MODULE, SET_DATA_MODEL) ∉ linker_imports .smartContract ∧
    (linker_imports .smartContract).length = 4 := by
  refine ⟨by decide, rfl⟩

/-- C8 amended: every linker's imports live in module `iroha`, contain
`log`, `dbg`, `execute_instruction` and `execute_query`, are drawn from the
five documented names without duplicates — and contain `set_data_model`
exactly for the four executor entrypoints, not for smart contracts or
triggers. -/
theorem linker_imports_characterization (k : EntrypointKind) :
    (∀ p ∈ linker_imports k, p.1 = WASM_MODULE) ∧
    (WASM_MODULE, LOG) ∈ linker_imports k ∧
    (WASM_MODULE, DBG) ∈ linker_imports k ∧
    (WASM_MODULE, EXECUTE_ISI) ∈ linker_imports k ∧
    (WASM_MODULE, EXECUTE_QUERY) ∈ linker_imports k ∧
    ((WASM_MODULE, SET_DATA_MODEL) ∈ linker_imports k ↔
      (k = .executeTransaction ∨ k = .executeInstruction ∨
        k = .validateQuery ∨ k = .migrate)) ∧
    (∀ p ∈ linker_imports k,
      p.2 ∈ [LOG, DBG, EXECUTE_ISI, EXECUTE_QUERY, SET_DATA_MODEL]) ∧
    ((linker_imports k).map Prod.snd).Nodup := by
  cases k <;> refine ⟨by decide, by decide, by decide, by decide, by decide,
    by decide, by decide, by decide⟩

/-- Query identifiers of the live-query store. -/
abbrev QueryId := Nat

/-- `LiveQueryStoreHandle::drop_query`: evict one query id from the
live-query store (the store is its list of live query ids). -/
def drop_query (store : List QueryId) (qid : QueryId) : List QueryId :=
  store.filter (fun q => q ≠ qid)

/-- `forget_all_executed_queries`: evict every recorded query id from the
live-query store, one `drop_query` at a time. -/
def forget_all_executed_queries (store : List QueryId) (executed : List QueryId) :
    List QueryId :=
  executed.foldl drop_query store

/-- `wasm::error::Error`, restricted to the variants the execution paths
below produce. -/
inductive WasmError where
  | exportFailure
  | exportFnCall (e : ExportFnCallError)
  | decodeFailure
deriving DecidableEq, Repr

/-- `Runtime::execute_smart_contract_with_state` (the same shape serves
`execute_trigger_module`), from the point where the guest entrypoint is
called: `main_fn.call(..).map_err(ExportFnCallError::from)?` — the `?`
returns the error *before* the eviction code runs — and only then
`store.into_data()`, `take_executed_queries()` and
`forget_all_executed_queries`.  `call_result` is the outcome the guest call
produced and `executed_queries` the query-id set the state accumulated
during it; `live` is the live-query store. -/
def execute_smart_contract_with_state
    (call_result : Except ExportFnCallError Unit)
    (executed_queries : List QueryId) (live : List QueryId) :
    Except WasmError Unit × List QueryId :=
  match call_result with
  | .error e => (.error (.exportFnCall e), live)
  | .ok _ => (.ok (), forget_all_executed_queries live executed_queries)

/-- `execute_executor_execute_internal`:
`execute_executor_validate_part1(..)?` — again an early return on error —
then `execute_executor_validate_part2`, which is exactly
`forget_all_executed_queries` on the state's executed-queries set.
`part1_result` is the outcome of part 1 (get the typed function, call it,
decode its verdict). -/
def execute_executor_execute_internal
    (part1_result : Except WasmError Unit)
    (executed_queries : List QueryId) (live : List QueryId) :
    Except WasmError Unit × List QueryId :=
  match part1_result with
  | .error e => (.error e, live)
  | .ok _ => (.ok (), forget_all_executed_queries live executed_queries)

theorem mem_forget_all_of_mem (executed : List QueryId) :
    ∀ store q, q ∈ forget_all_executed_queries store executed → q ∈ store := by
  induction executed with
  | nil => intro store q hq; exact hq
  | cons e rest ih =>
    intro store q hq
    have := ih (drop_query store e) q hq
    exact List.mem_of_mem_filter this

theorem not_mem_forget_all (executed : List QueryId) :
    ∀ store q, q ∈ executed → q ∉ forget_all_executed_queries store executed := by
  induction executed with
  | nil => intro store q hq; simp at hq
  | cons e rest ih =>
    intro store q hq hmem
    rcases List.mem_cons.mp hq with rfl | hq'
    · have := mem_forget_all_of_mem rest (drop_query store q) q hmem
      simp [drop_query, List.mem_filter] at this
    · exact ih (drop_query store e) q hq' hmem

/-- C6 counterexample: the claim says executed query ids are evicted on
every exit path, including a trap; but when the guest call traps
(`OutOfFuel` here), `execute_smart_contract_with_state` returns through `?`
before `forget_all_executed_queries` runs, and the recorded query id `7`
stays in the live-query store. -/
theorem wasm_query_eviction_counterexample :
    (execute_smart_contract_with_state
        (.error (ExportFnCallError.executionLimitsExceeded)) [7] [7]).2 = [7] ∧
    7 ∈ (execute_smart_contract_with_state
        (.error (ExportFnCallError.executionLimitsExceeded)) [7] [7]).2 ∧
    (execute_executor_execute_internal
        (.error (.exportFnCall ExportFnCallError.executionLimitsExceeded)) [7] [7]).2
      = [7] := by
  refine ⟨rfl, by decide, rfl⟩

/-- C6 amended: executed query ids are evicted from the live-query store on
the *successful* exit path only; when the guest call (or executor part 1)
ends in an error or trap the function returns early and the live-query
store is left untouched.  This holds for both the smart-contract/trigger
path and the executor path. -/
theorem wasm_query_eviction_paths
    (call_result : Except ExportFnCallError Unit)
    (part1_result : Except WasmError Unit)
    (executed_queries live : List QueryId) :
    (call_result = .ok () →
      ∀ q ∈ executed_queries,
        q ∉ (execute_smart_contract_with_state call_result executed_queries live).2) ∧
    (∀ e, call_result = .error e →
      (execute_smart_contract_with_state call_result executed_queries live).2 = live) ∧
    (part1_result = .ok () →
      ∀ q ∈ executed_queries,
        q ∉ (execute_executor_execute_internal part1_result executed_queries live).2) ∧
    (∀ e, part1_result = .error e →
      (execute_executor_execute_internal part1_result executed_queries live).2 = live) := by
  refine ⟨?_, ?_, ?_, ?_⟩
  · intro hok q hq
    subst hok
    exact not_mem_forget_all executed_queries live q hq
  · intro e he
    subst he
    rfl
  · intro hok q hq
    subst hok
    exact not_mem_forget_all executed_queries live q hq
  · intro e he
    subst he
    rfl

/-- Witness for `wasm_query_eviction_paths`: on the successful path the
recorded query id `5` is evicted. -/
theorem wasm_query_eviction_paths_witness :
    5 ∉ (execute_smart_contract_with_state (.ok ()) [5] [5]).2 :=
  (wasm_query_eviction_paths (.ok ()) (.ok ()) [5] [5]).1 rfl 5 (by decide)

/- ## Multisig overlay (src/wasm/libs/default_executor/src/multisig/) -/

/-- `AccountId`: `(domain, public key)` — the public key is the identity. -/
structure AccountId where
  domain : String
  signatory : String
deriving DecidableEq, Repr

/-- An `InstructionBox` stored in a proposal, kept opaque. -/
abbrev Isi := Nat

/-- The three proposal metadata keys for one `instructions_hash`:
`proposals/<H>/instructions`, `proposals/<H>/proposed_at_ms`,
`proposals/<H>/approvals` (a `BTreeSet<AccountId>`). -/
structure ProposalState where
  instructions : List Isi
  proposed_at_ms : Nat
  approvals : Finset AccountId
deriving DecidableEq

/-- The multisig account metadata `MultisigApprove::execute` queries:
`signatories` (a `BTreeMap<AccountId, u8>`), `quorum` (`u16`),
`transaction_ttl_ms` (`u64`), and the proposal keys (present iff
`proposal = some _`; `visit` denies when they are absent). -/
structure MultisigAccountState where
  signatories : List (AccountId × Nat)
  quorum : Nat
  transaction_ttl_ms : Nat
  proposal : Option ProposalState
deriving DecidableEq

/-- `u64::saturating_add`. -/
def u64_saturating_add (a b : Nat) : Nat := min (a + b) (2 ^ 64 - 1)

/-- `Iterator::sum::<u16>()`: summation in `u16` arithmetic (wrapping per
addition, the release-build behaviour). -/
def u16_sum (ws : List Nat) : Nat :=
  ws.foldl (fun acc w => (acc + w) % 65536) 0

/-- `MultisigApprove::execute`: read the signatories, quorum, ttl and
proposal keys (`dbg_unwrap` — `visit` already checked the proposal exists),
insert the approver into the approvals and write them back; then
`is_authenticated` is `quorum ≤` the `u16` sum of the weights of
signatories contained in the approvals, `is_expired` is
`proposed_at_ms.saturating_add(ttl) < now_ms`; if either holds the three
proposal keys are removed, and the stored instructions are submitted only
when not expired. -/
def multisig_approve_execute (st : MultisigAccountState)
    (init_authority : AccountId) (now_ms : Nat) :
    Option (List Isi × MultisigAccountState) :=
  match st.proposal with
  | none => none
  | some p =>
    let approvals := insert init_authority p.approvals
    let is_authenticated :=
      st.quorum ≤ u16_sum ((st.signatories.filter
        (fun s => s.1 ∈ approvals)).map (fun s => s.2))
    let is_expired :=
      u64_saturating_add p.proposed_at_ms st.transaction_ttl_ms < now_ms
    if is_authenticated ∨ is_expired then
      some (if is_expired then [] else p.instructions, { st with proposal := none })
    else
      some ([], { st with proposal := some { p with approvals := approvals } })

theorem u16_sum_eq_sum (ws : List Nat) :
    ∀ acc, acc + ws.sum < 65536 →
      ws.foldl (fun acc w => (acc + w) % 65536) acc = acc + ws.sum := by
  induction ws with
  | nil => intro acc _; simp
  | cons w rest ih =>
    intro acc hacc
    simp only [List.sum_cons] at hacc
    simp only [List.foldl_cons]
    rw [Nat.mod_eq_of_lt (by omega)]
    rw [ih (acc + w) (by omega)]
    simp only [List.sum_cons]
    omega

theorem u64_saturating_add_lt_iff (a b now : Nat) (hnow : now < 2 ^ 64) :
    u64_saturating_add a b < now ↔ a + b < now := by
  unfold u64_saturating_add
  rw [Nat.min_def]
  split_ifs with h
  · exact Iff.rfl
  · constructor
    · intro hlt; omega
    · intro hlt; omega

/-- C3: for a multisig account with recorded signatories, quorum and
`transaction_ttl_ms` and an existing proposal, an `Approve` submits the
stored instruction list exactly when the summed weight of the approving
signatories (the approver included) reaches the quorum and the proposal is
not expired (`now_ms ≤ proposed_at_ms + ttl`); the three proposal keys are
deleted exactly when it executes or the proposal has expired, an expired
proposal being deleted without executing, and otherwise the proposal stays
with the approver added.  The side conditions keep the `u16` weight sum and
the `u64` clock within their machine ranges. -/
theorem multisig_approve_quorum_and_expiry (st : MultisigAccountState)
    (p : ProposalState) (auth : AccountId) (now_ms : Nat)
    (hp : st.proposal = some p)
    (hnow : now_ms < 2 ^ 64)
    (hsum : ((st.signatories.filter
        (fun s => s.1 ∈ insert auth p.approvals)).map (fun s => s.2)).sum < 65536) :
    multisig_approve_execute st auth now_ms =
      some
        (if st.quorum ≤ ((st.signatories.filter
              (fun s => s.1 ∈ insert auth p.approvals)).map (fun s => s.2)).sum ∧
            now_ms ≤ p.proposed_at_ms + st.transaction_ttl_ms
          then p.instructions else [],
          if st.quorum ≤ ((st.signatories.filter
              (fun s => s.1 ∈ insert auth p.approvals)).map (fun s => s.2)).sum ∨
            p.proposed_at_ms + st.transaction_ttl_ms < now_ms
          then { st with proposal := none }
          else { st with
            proposal := some { p with approvals := insert auth p.approvals } }) := by
  unfold multisig_approve_execute
  rw [hp]
  have hw : u16_sum ((st.signatories.filter
      (fun s => s.1 ∈ insert auth p.approvals)).map (fun s => s.2)) =
      ((st.signatories.filter
        (fun s => s.1 ∈ insert auth p.approvals)).map (fun s => s.2)).sum := by
    have := u16_sum_eq_sum ((st.signatories.filter
      (fun s => s.1 ∈ insert auth p.approvals)).map (fun s => s.2)) 0 (by omega)
    simpa [u16_sum] using this
  have hexp := u64_saturating_add_lt_iff p.proposed_at_ms st.transaction_ttl_ms
    now_ms hnow
  dsimp only
  simp only [hw, hexp]
  split_ifs <;> first
  | rfl
  | (exfalso; omega)

/-- A leaf signatory of the concrete multisig account. -/
def sig1 : AccountId := ⟨"wonderland", "ed0120a1"⟩

/-- The second leaf signatory, the approver of the witness. -/
def sig2 : AccountId := ⟨"wonderland", "ed0120b2"⟩

/-- The concrete proposal: one stored instruction, proposed at `100` ms,
already approved by `sig1`. -/
def prop3 : ProposalState := ⟨[42], 100, {sig1}⟩

/-- The concrete multisig account: two signatories of weight `1`, quorum
`2`, ttl `1000` ms. -/
def st3 : MultisigAccountState := ⟨[(sig1, 1), (sig2, 1)], 2, 1000, some prop3⟩

/-- Witness for `multisig_approve_quorum_and_expiry`: `sig2` approving at
`500` ms reaches the quorum before expiry, so the stored instruction list
is submitted and the proposal keys are deleted. -/
theorem multisig_approve_quorum_and_expiry_witness :
    multisig_approve_execute st3 sig2 500 =
      some ([42], { st3 with proposal := none }) :=
  (multisig_approve_quorum_and_expiry st3 prop3 sig2 500 rfl (by decide)
    (by decide)).trans (by decide)

/-- The executor verdict: `Ok` or `Deny(ValidationFail::NotPermitted)`. -/
inductive Verdict where
  | allow
  | deny (reason : String)
deriving DecidableEq, Repr

/-- `visit_multisig_register` (identical in `multisig/mod.rs` and
`multisig/account.rs`): when the new multisig account's domain equals the
registering authority's domain, `execute!` submits the instruction — which
issues the native `Register<Account>` — denying only if that submission
fails, and returns; otherwise the trailing `deny!` rejects with the
same-domain message.  The first component records whether the instruction
was submitted; `submit_result` is the host's outcome for the submission. -/
def visit_multisig_register (authority account_id : AccountId)
    (submit_result : Except String Unit) : Bool × Verdict :=
  if account_id.domain = authority.domain then
    match submit_result with
    | .ok _ => (true, .allow)
    | .error e => (true, .deny e)
  else
    (false, .deny "multisig account and its registrant must be in the same domain")

/-- C9: a `MultisigRegister` passes validation with the registration issued
exactly when the new multisig account's domain equals the registering
authority's domain, and is denied with a validation failure when the
domains differ (given the issued registration itself succeeds). -/
theorem multisig_register_same_domain (authority account_id : AccountId)
    (submit_result : Except String Unit) (hok : submit_result = .ok ()) :
    ((visit_multisig_register authority account_id submit_result).1 = true ↔
      account_id.domain = authority.domain) ∧
    ((visit_multisig_register authority account_id submit_result).2 = .allow ↔
      account_id.domain = authority.domain) ∧
    (account_id.domain ≠ authority.domain →
      (visit_multisig_register authority account_id submit_result).2 =
        .deny "multisig account and its registrant must be in the same domain") := by
  subst hok
  unfold visit_multisig_register
  by_cases h : account_id.domain = authority.domain <;> simp [h]

/-- A registering authority in `wonderland`. -/
def registrant : AccountId := ⟨"wonderland", "ed0120c3"⟩

/-- The multisig account being registered, in the same domain. -/
def msaccount : AccountId := ⟨"wonderland", "ed0120d4"⟩

/-- Witness for `multisig_register_same_domain` at the concrete same-domain
registration. -/
theorem multisig_register_same_domain_witness :
    ((visit_multisig_register registrant msaccount (.ok ())).1 = true ↔
      msaccount.domain = registrant.domain) ∧
    ((visit_multisig_register registrant msaccount (.ok ())).2 = .allow ↔
      msaccount.domain = registrant.domain) ∧
    (msaccount.domain ≠ registrant.domain →
      (visit_multisig_register registrant msaccount (.ok ())).2 =
        .deny "multisig account and its registrant must be in the same domain") :=
  multisig_register_same_domain registrant msaccount (.ok ()) rfl
